import Mathlib

/-!
# Verification of the Rocrail remote-controller connection/protocol core

A shallow embedding of the firmware's protocol engine
(`src/firmware/lib/protocol/rocrail_protocol.py`), the locomotive roster
(`src/firmware/lib/loco_list.py`), the safety-interlock state machine
(`src/firmware/lib/core/controller_state.py`) and the main-loop gating
(`src/firmware/rocrail_controller.py`), together with proofs of the
spec's testable properties.

Python strings are modelled as `List Char` (MicroPython `str`, one `Char`
per code point), integers as `Nat`/`Int`.  `str.find` returning `-1` is
modelled as `Option Nat`.
-/

/-! ## Python string primitives -/

/-- `strStartsWith s pat`: `pat` occurs at the very start of `s`
(Python `s.startswith(pat)`; used to implement `find`). -/
def strStartsWith : List Char → List Char → Bool
  | _, [] => true
  | [], _ :: _ => false
  | c :: cs, p :: ps => c = p && strStartsWith cs ps

/-- Python `s.find(pat)`: index of the first occurrence of `pat` in `s`,
`none` for Python's `-1`. -/
def strFind : List Char → List Char → Option Nat
  | [], pat => if pat = [] then some 0 else none
  | c :: cs, pat =>
    if strStartsWith (c :: cs) pat then some 0
    else (strFind cs pat).map (· + 1)

/-- Python `s.find(pat, start)`: first occurrence at index `≥ start`. -/
def strFindFrom (s pat : List Char) (start : Nat) : Option Nat :=
  (strFind (s.drop start) pat).map (· + start)

/-- Python `pat in s` (substring containment). -/
def containsSub (s pat : List Char) : Bool :=
  (strFind s pat).isSome

/-- Python slice `s[a:b]` (with `0 ≤ a ≤ b`; empty when `b ≤ a`). -/
def pslice (s : List Char) (a b : Nat) : List Char :=
  (s.drop a).take (b - a)

/-- Python whitespace (the characters `str.strip` removes). -/
def iswsp (c : Char) : Bool :=
  c = ' ' || c = '\t' || c = '\n' || c = '\r' || c = '\x0b' || c = '\x0c'

/-- Python `s.strip()`. -/
def pstrip (s : List Char) : List Char :=
  ((s.dropWhile iswsp).reverse.dropWhile iswsp).reverse

/-- The decimal digit characters, for Python `str(n)`. -/
def digitChar : Nat → Char
  | 0 => '0' | 1 => '1' | 2 => '2' | 3 => '3' | 4 => '4'
  | 5 => '5' | 6 => '6' | 7 => '7' | 8 => '8' | _ => '9'

/-- Fuel-indexed decimal printing (structural recursion so that the kernel
can evaluate it). -/
def natDigitsAux : Nat → Nat → List Char
  | 0, _ => []
  | fuel + 1, n =>
    if n < 10 then [digitChar n]
    else natDigitsAux fuel (n / 10) ++ [digitChar (n % 10)]

/-- Python `str(n)` for a non-negative integer: decimal digits, no sign,
no leading zeros (`"0"` for zero). -/
def natDigits (n : Nat) : List Char := natDigitsAux (n + 1) n

/-- Decimal parsing, the left fold a reader of the `size="N"` attribute
performs. -/
def digitsToNat (ds : List Char) : Nat :=
  ds.foldl (fun a c => a * 10 + (c.toNat - 48)) 0

/-! ### Lemmas about the primitives -/

theorem digitChar_toNat {d : Nat} (h : d < 10) : (digitChar d).toNat = 48 + d := by
  interval_cases d <;> decide

theorem digitChar_isDigit {d : Nat} (h : d < 10) : (digitChar d).isDigit = true := by
  interval_cases d <;> decide

theorem digitChar_ne_quote {d : Nat} (h : d < 10) : digitChar d ≠ '"' := by
  interval_cases d <;> decide

theorem natDigitsAux_ne_nil (fuel n : Nat) : natDigitsAux (fuel + 1) n ≠ [] := by
  unfold natDigitsAux
  split <;> simp

theorem natDigitsAux_digits (fuel : Nat) :
    ∀ n, n < fuel → ∀ c ∈ natDigitsAux fuel n, c.isDigit = true := by
  induction fuel with
  | zero => intro n h; omega
  | succ fuel ih =>
    intro n h c hc
    unfold natDigitsAux at hc
    split at hc
    · next h10 =>
      simp only [List.mem_singleton] at hc
      subst hc; exact digitChar_isDigit h10
    · next h10 =>
      rw [List.mem_append] at hc
      rcases hc with hc | hc
      · exact ih (n / 10) (by omega) c hc
      · simp only [List.mem_singleton] at hc
        subst hc; exact digitChar_isDigit (Nat.mod_lt _ (by omega))

theorem natDigits_digits (n : Nat) : ∀ c ∈ natDigits n, c.isDigit = true :=
  natDigitsAux_digits (n + 1) n (Nat.lt_succ_self n)

theorem natDigits_ne_nil (n : Nat) : natDigits n ≠ [] :=
  natDigitsAux_ne_nil n n

theorem foldl_digits_aux (fuel : Nat) :
    ∀ n a, n < fuel →
      (natDigitsAux fuel n).foldl (fun a c => a * 10 + (c.toNat - 48)) a =
        a * 10 ^ (natDigitsAux fuel n).length + n := by
  induction fuel with
  | zero => intro n a h; omega
  | succ fuel ih =>
    intro n a h
    unfold natDigitsAux
    split
    · next h10 =>
      simp only [List.foldl_cons, List.foldl_nil, List.length_singleton, pow_one,
        digitChar_toNat h10]
      omega
    · next h10 =>
      have hrec : n / 10 < fuel := by
        have : n / 10 < n := Nat.div_lt_self (by omega) (by omega)
        omega
      rw [List.foldl_append, ih (n / 10) a hrec, List.length_append]
      simp only [List.foldl_cons, List.foldl_nil, List.length_singleton,
        digitChar_toNat (Nat.mod_lt n (show 0 < 10 by omega))]
      have h48 : 48 + n % 10 - 48 = n % 10 := by omega
      rw [h48, pow_succ]
      have hm : 10 * (n / 10) + n % 10 = n := Nat.div_add_mod n 10
      generalize (10 : Nat) ^ (natDigitsAux fuel (n / 10)).length = B
      linarith [hm]

/-- Decimal printing round-trips through decimal parsing. -/
theorem digitsToNat_natDigits (n : Nat) : digitsToNat (natDigits n) = n := by
  have := foldl_digits_aux (n + 1) n 0 (Nat.lt_succ_self n)
  simpa [digitsToNat, natDigits] using this

/-! ## Frame codec

`RocrailProtocol.send_speed_and_direction` / `AsyncRocrailProtocol._send_message`
frame every outgoing payload as
`f'<xmlh><xml size="{message_len}"/></xmlh>{message}'` with
`message_len = len(message)`. -/

/-- The fixed text before the announced size. -/
def hdrOpen : List Char := "<xmlh><xml size=\"".data

/-- The fixed text after the announced size. -/
def hdrClose : List Char := "\"/></xmlh>".data

/-- The envelope `<xmlh><xml size="N"/></xmlh>` for announced length `N`. -/
def frameHeader (n : Nat) : List Char :=
  hdrOpen ++ natDigits n ++ hdrClose

/-- `_send_message` framing: header announcing `len(payload)`, then the
payload itself. -/
def encode (payload : List Char) : List Char :=
  frameHeader payload.length ++ payload

/-- Consume an expected literal from the front of the input. -/
def dropLiteral : List Char → List Char → Option (List Char)
  | s, [] => some s
  | [], _ :: _ => none
  | c :: cs, p :: ps => if c = p then dropLiteral cs ps else none

/-- Modelled from the spec: no decoder exists under `src/` (the firmware
only ever builds frames), so this follows §4.1/§8 of the spec: strip the
fixed `<xmlh><xml size="N"/></xmlh>` header and take the announced `N`
bytes of payload. -/
def decode (s : List Char) : Option (List Char) :=
  match dropLiteral s hdrOpen with
  | none => none
  | some rest =>
    let ds := rest.takeWhile Char.isDigit
    if ds = [] then none
    else
      match dropLiteral (rest.drop ds.length) hdrClose with
      | none => none
      | some body => some (body.take (digitsToNat ds))

/-- The payload of `send_speed_and_direction`:
`f'<lc id="{current_loco_id}" V="{speed}" dir="{direction}"/>'`. -/
def speedMessage (locoId : List Char) (speed : Nat) (dir : List Char) : List Char :=
  "<lc id=\"".data ++ locoId ++ "\" V=\"".data ++ natDigits speed
    ++ "\" dir=\"".data ++ dir ++ "\"/>".data

/-- The bytes `send_speed_and_direction` puts on the wire. -/
def speedFrame (locoId : List Char) (speed : Nat) (dir : List Char) : List Char :=
  encode (speedMessage locoId speed dir)

/-! ### Codec lemmas -/

theorem dropLiteral_append (a b : List Char) : dropLiteral (a ++ b) a = some b := by
  induction a with
  | nil => simp [dropLiteral]
  | cons c cs ih => simp [dropLiteral, ih]

theorem takeWhile_append_of (p : Char → Bool) (xs : List Char) (y : Char) (ys : List Char)
    (hxs : ∀ x ∈ xs, p x = true) (hy : p y = false) :
    (xs ++ y :: ys).takeWhile p = xs := by
  induction xs with
  | nil => simp [List.takeWhile, hy]
  | cons x xs ih =>
    have hx : p x = true := hxs x (List.mem_cons_self x xs)
    simp only [List.cons_append, List.takeWhile_cons, hx, if_true]
    rw [ih (fun z hz => hxs z (List.mem_cons_of_mem x hz))]

theorem takeWhile_natDigits (n : Nat) (p : List Char) :
    (natDigits n ++ (hdrClose ++ p)).takeWhile Char.isDigit = natDigits n := by
  have hsplit : hdrClose ++ p = '"' :: ("/></xmlh>".data ++ p) := rfl
  rw [hsplit]
  exact takeWhile_append_of Char.isDigit (natDigits n) '"' _ (natDigits_digits n) (by decide)

/-- C2: the framed wire message is exactly the header announcing `len(p)`
followed by `p`, and (for payloads free of the header's own markers)
stripping the header and taking the announced `N` bytes recovers `p`:
`decode (encode p) = p`. -/
theorem framing_roundtrip (p : List Char)
    (_hm : containsSub p "<xmlh>".data = false ∧ containsSub p "</xmlh>".data = false) :
    encode p = frameHeader p.length ++ p ∧ decode (encode p) = some p := by
  refine ⟨rfl, ?_⟩
  have hassoc : encode p = hdrOpen ++ (natDigits p.length ++ (hdrClose ++ p)) := by
    simp [encode, frameHeader, List.append_assoc]
  rw [hassoc]
  have h1 : dropLiteral (hdrOpen ++ (natDigits p.length ++ (hdrClose ++ p))) hdrOpen
      = some (natDigits p.length ++ (hdrClose ++ p)) := dropLiteral_append _ _
  have h2 := takeWhile_natDigits p.length p
  have h3 : (natDigits p.length ++ (hdrClose ++ p)).drop (natDigits p.length).length
      = hdrClose ++ p := List.drop_left _ _
  have h4 : dropLiteral (hdrClose ++ p) hdrClose = some p := dropLiteral_append _ _
  simp only [decode, h1, h2, h3, h4, natDigits_ne_nil p.length, if_neg,
    digitsToNat_natDigits, List.take_length]
  simp

/-- C2 witness: the round trip evaluated at the concrete payload `<lc/>`. -/
theorem framing_roundtrip_witness :
    (containsSub "<lc/>".data "<xmlh>".data = false ∧
      containsSub "<lc/>".data "</xmlh>".data = false) ∧
    (encode "<lc/>".data = frameHeader ("<lc/>".data.length) ++ "<lc/>".data ∧
      decode (encode "<lc/>".data) = some "<lc/>".data) :=
  ⟨by decide, framing_roundtrip "<lc/>".data (by decide)⟩

/-- C3 counterexample: the payload `<lc id="BR103" V="50" dir="true"/>` has
byte length 34, not 33, so the wire bytes differ from the frame the claim
announces (`size="33"`). -/
theorem scenario_a_counterexample :
    (speedMessage "BR103".data 50 "true".data).length = 34 ∧
    speedFrame "BR103".data 50 "true".data ≠
      "<xmlh><xml size=\"33\"/></xmlh><lc id=\"BR103\" V=\"50\" dir=\"true\"/>".data := by
  decide

/-- C3 amended: with locomotive `BR103`, speed 50 and direction `true`,
`send_speed_and_direction` puts exactly
`<xmlh><xml size="34"/></xmlh><lc id="BR103" V="50" dir="true"/>` on the
wire; the announced size and the payload length are both 34. -/
theorem scenario_a_amended :
    speedFrame "BR103".data 50 "true".data =
      "<xmlh><xml size=\"34\"/></xmlh><lc id=\"BR103\" V=\"50\" dir=\"true\"/>".data ∧
    (speedMessage "BR103".data 50 "true".data).length = 34 := by
  decide

/-! ## Safety interlock (`lib/core/controller_state.py`) and main-loop gating
(`rocrail_controller.py`, `update_speed` / button ticks)

The interlock is the boolean `sending_speed_enabled`.  The three context
events (`handle_locomotive_change`, `handle_direction_change`,
`handle_emergency_stop`) all call `disable_speed_sending`;
`check_speed_enable_condition` re-enables only on a throttle sample of
exactly `0`.  The main loop gates `send_speed_and_direction` on
`is_speed_sending_enabled()` and, while disabled, only polls
`check_speed_enable_condition`. -/

/-- `ControllerStateMachine.disable_speed_sending`: the guard only skips
the log line; the flag ends up `false` either way. -/
def disable_speed_sending (_enabled : Bool) : Bool := false

/-- `ControllerStateMachine.check_speed_enable_condition`: re-enable
exactly when currently disabled and the potentiometer reads `0`. -/
def check_speed_enable_condition (enabled : Bool) (current_speed : Nat) : Bool :=
  if !enabled && current_speed == 0 then true else enabled

/-- `handle_locomotive_change` / `handle_direction_change` /
`handle_emergency_stop` all just disable speed sending. -/
def handle_context_change (enabled : Bool) : Bool :=
  disable_speed_sending enabled

/-- The pieces of main-loop state the speed path touches: the interlock
flag and `last_speed` (initialised to `-1` in the source, hence `Int`). -/
structure LoopState where
  sending_speed_enabled : Bool
  last_speed : Int
  deriving DecidableEq, Repr

/-- One main-loop occurrence of a context event or of an `update_speed`
tick carrying the live throttle sample. -/
inductive CEvent
  | locoChange
  | dirChange
  | emergency
  | sample (v : Nat)
  deriving DecidableEq, Repr

/-- One step of the main loop.  Context events send a zero-speed command
for the previous context and disable the interlock (`rocrail_controller.py`
lines 402-421 and `handle_locomotive_selection`); an `update_speed` tick
sends the live sample only when the interlock is enabled and the value
changed, and otherwise merely polls `check_speed_enable_condition`
(lines 441-451).  The second component is the speed value passed to
`send_speed_and_direction`, if any. -/
def stepLoop (s : LoopState) : CEvent → LoopState × Option Nat
  | .locoChange => ({ s with sending_speed_enabled := handle_context_change s.sending_speed_enabled }, some 0)
  | .dirChange => ({ s with sending_speed_enabled := handle_context_change s.sending_speed_enabled }, some 0)
  | .emergency => ({ s with sending_speed_enabled := handle_context_change s.sending_speed_enabled }, some 0)
  | .sample v =>
    if s.sending_speed_enabled then
      if (v : Int) ≠ s.last_speed then ({ s with last_speed := (v : Int) }, some v)
      else (s, none)
    else
      ({ s with sending_speed_enabled := check_speed_enable_condition s.sending_speed_enabled v }, none)

/-- Run a whole interleaving of events and samples, collecting every speed
value handed to `send_speed_and_direction`. -/
def runLoop (s : LoopState) : List CEvent → LoopState × List Nat
  | [] => (s, [])
  | e :: es =>
    let (s', out) := stepLoop s e
    let (s'', outs) := runLoop s' es
    (s'', (out.toList) ++ outs)

theorem runLoop_cons (s : LoopState) (e : CEvent) (es : List CEvent) :
    runLoop s (e :: es) =
      ((runLoop (stepLoop s e).1 es).1,
        (stepLoop s e).2.toList ++ (runLoop (stepLoop s e).1 es).2) := by
  simp [runLoop]

/-- From a disabled interlock, a run of events and nonzero samples keeps
the interlock disabled and sends only zero-speed commands. -/
theorem runLoop_disabled (evs : List CEvent) :
    ∀ s : LoopState, s.sending_speed_enabled = false →
      (∀ u, CEvent.sample u ∈ evs → u ≠ 0) →
      (runLoop s evs).1.sending_speed_enabled = false ∧
        ∀ w ∈ (runLoop s evs).2, w = 0 := by
  induction evs with
  | nil => intro s hdis _; simpa [runLoop] using hdis
  | cons e es ih =>
    intro s hdis hnz
    have hnz' : ∀ u, CEvent.sample u ∈ es → u ≠ 0 := fun u hu =>
      hnz u (List.mem_cons_of_mem e hu)
    have hstep : (stepLoop s e).1.sending_speed_enabled = false ∧
        ∀ w ∈ (stepLoop s e).2.toList, w = 0 := by
      cases e with
      | locoChange => simp [stepLoop, handle_context_change, disable_speed_sending]
      | dirChange => simp [stepLoop, handle_context_change, disable_speed_sending]
      | emergency => simp [stepLoop, handle_context_change, disable_speed_sending]
      | sample u =>
        have hu : u ≠ 0 := hnz u (List.mem_cons_self _ _)
        simp [stepLoop, hdis, check_speed_enable_condition, hu]
    rw [runLoop_cons]
    have hrest := ih (stepLoop s e).1 hstep.1 hnz'
    refine ⟨hrest.1, ?_⟩
    intro w hw
    rw [List.mem_append] at hw
    rcases hw with hw | hw
    · exact hstep.2 w hw
    · exact hrest.2 w hw

/-- C1: interlock safety.  (i) from *any* state, enabled or not, every
locomotive-change, direction-change or emergency event leaves the
interlock disabled; (ii) from a disabled state a throttle sample
re-enables it exactly when the sample is `0`, and no speed command is
issued on that tick; (iii) while disabled, along any continuation of
further events and only nonzero samples, the interlock stays disabled and
every speed value handed to `send_speed_and_direction` is `0` — never the
live (possibly nonzero) throttle. -/
theorem interlock_safety (s : LoopState) (v : Nat) (evs : List CEvent)
    (hnz : ∀ u, CEvent.sample u ∈ evs → u ≠ 0) :
    ((stepLoop s .locoChange).1.sending_speed_enabled = false ∧
      (stepLoop s .dirChange).1.sending_speed_enabled = false ∧
      (stepLoop s .emergency).1.sending_speed_enabled = false) ∧
    (s.sending_speed_enabled = false →
      (stepLoop s (.sample v)).1.sending_speed_enabled = decide (v = 0) ∧
        (stepLoop s (.sample v)).2 = none) ∧
    (s.sending_speed_enabled = false →
      (runLoop s evs).1.sending_speed_enabled = false ∧
        ∀ w ∈ (runLoop s evs).2, w = 0) := by
  refine ⟨⟨rfl, rfl, rfl⟩, ?_, fun hdis => runLoop_disabled evs s hdis hnz⟩
  intro hdis
  constructor
  · simp [stepLoop, hdis, check_speed_enable_condition]
  · simp [stepLoop, hdis]

/-- C1 witness: a locomotive change fired from an *enabled* state
(`⟨true, 5⟩`) disables the interlock; from a disabled state a `0` sample
re-enables on that exact tick with no send, and a nonzero sample followed
by another event keeps it off with only zero-speed sends. -/
theorem interlock_safety_witness :
    (∀ u, CEvent.sample u ∈ [CEvent.sample 37, CEvent.locoChange] → u ≠ 0) ∧
    ((stepLoop ⟨true, 5⟩ .locoChange).1.sending_speed_enabled = false) ∧
    ((⟨false, 5⟩ : LoopState).sending_speed_enabled = false ∧
      (stepLoop ⟨false, 5⟩ (.sample 0)).1.sending_speed_enabled = decide ((0 : Nat) = 0) ∧
      (stepLoop ⟨false, 5⟩ (.sample 0)).2 = none) ∧
    ((runLoop ⟨false, 5⟩ [CEvent.sample 37, CEvent.locoChange]).1.sending_speed_enabled = false ∧
      ∀ w ∈ (runLoop ⟨false, 5⟩ [CEvent.sample 37, CEvent.locoChange]).2, w = 0) := by
  have hnzw : ∀ u, CEvent.sample u ∈ [CEvent.sample 37, CEvent.locoChange] → u ≠ 0 := by
    intro u hu
    simp at hu
    omega
  have hzero := (interlock_safety ⟨false, 5⟩ 0 [CEvent.sample 37, CEvent.locoChange] hnzw).2
  exact ⟨hnzw,
    (interlock_safety ⟨true, 5⟩ 0 [] (by simp)).1.1,
    ⟨rfl, hzero.1 rfl⟩,
    hzero.2 rfl⟩

/-! ## Locomotive roster (`lib/loco_list.py`)

`LocoList` holds `locomotives` (list of dicts with `'id'` and `'name'`)
and `selected_index` (a Python `int`, hence `Int`: a stale persistence
file can make it negative).  `max_locos = 5`. -/

/-- One roster entry: the `'id'`/`'name'` pair `add_locomotive` stores
(the extraction step's extra echo fields `shortid`/`roadname`/`number`
are never read downstream and are not modelled). -/
structure LocoEntry where
  id : List Char
  name : List Char
  deriving DecidableEq, Repr

/-- The in-memory `LocoList` state. -/
structure LocoListState where
  locomotives : List LocoEntry
  selected_index : Int
  deriving DecidableEq, Repr

/-- `self.max_locos = 5` (NeoPixel-limited). -/
def max_locos : Nat := 5

/-- Python string `<=` on the sort keys: code-point lexicographic order. -/
def lexLe : List Char → List Char → Bool
  | [], _ => true
  | _ :: _, [] => false
  | a :: as, b :: bs =>
    if a.toNat = b.toNat then lexLe as bs else decide (a.toNat < b.toNat)

/-- The sort key `x['name'].upper()`. -/
def nameKey (e : LocoEntry) : List Char := e.name.map Char.toUpper

/-- Comparison used by `_sort_alphabetically`. -/
def nameLe (a b : LocoEntry) : Bool := lexLe (nameKey a) (nameKey b)

/-- Stable insertion of one entry into an already sorted list (a new
entry goes after existing entries with an equal key, as Python's stable
`list.sort` keeps equal keys in encounter order). -/
def insertByName (x : LocoEntry) : List LocoEntry → List LocoEntry
  | [] => [x]
  | y :: ys => if nameLe y x then y :: insertByName x ys else x :: y :: ys

/-- Stable sort by uppercased name: the model of
`self.locomotives.sort(key=lambda x: x['name'].upper())`. -/
def sortByName : List LocoEntry → List LocoEntry
  | [] => []
  | x :: xs => insertByName x (sortByName xs)

/-- `LocoList._sort_alphabetically`: sort and reset the selection to the
first locomotive. -/
def sort_alphabetically (st : LocoListState) : LocoListState :=
  { locomotives := sortByName st.locomotives, selected_index := 0 }

/-- `LocoList.add_locomotive`: refuse a duplicate id, refuse a full list,
otherwise append and re-sort.  Returns the updated state and the Python
return value. -/
def add_locomotive (st : LocoListState) (loco_id : List Char)
    (loco_name : Option (List Char)) : LocoListState × Bool :=
  let name := loco_name.getD loco_id
  if st.locomotives.any (fun l => l.id == loco_id) then (st, false)
  else if st.locomotives.length < max_locos then
    (sort_alphabetically { st with locomotives := st.locomotives ++ [⟨loco_id, name⟩] }, true)
  else (st, false)

/-- `LocoList.select_next`: wrap forward (Python `%` on a positive length
is `Int.emod`). -/
def select_next (st : LocoListState) : LocoListState × Bool :=
  if st.locomotives.length ≤ 1 then (st, false)
  else
    let old_index := st.selected_index
    let new_index := (old_index + 1) % (st.locomotives.length : Int)
    ({ st with selected_index := new_index }, decide (old_index ≠ new_index))

/-- `LocoList.select_previous`: wrap backward. -/
def select_previous (st : LocoListState) : LocoListState × Bool :=
  if st.locomotives.length ≤ 1 then (st, false)
  else
    let old_index := st.selected_index
    let new_index := (old_index - 1) % (st.locomotives.length : Int)
    ({ st with selected_index := new_index }, decide (old_index ≠ new_index))

/-- `LocoList.select_by_index`. -/
def select_by_index (st : LocoListState) (index : Int) : LocoListState × Bool :=
  if 0 ≤ index ∧ index < (st.locomotives.length : Int) then
    ({ st with selected_index := index }, decide (st.selected_index ≠ index))
  else (st, false)

/-- `LocoList.clear`. -/
def clearList (_st : LocoListState) : LocoListState := ⟨[], 0⟩

/-- The parsed content of the persistence file (`json.load` result):
whatever the file holds, valid or stale. -/
structure LoadData where
  locomotives : List LocoEntry
  selected_index : Int
  deriving DecidableEq, Repr

/-- `LocoList.load_from_file`, successful-read branch: take the file
content as-is and re-validate only the upper bound of the index
(`if self.selected_index >= len(self.locomotives): self.selected_index = 0`). -/
def load_from_file (d : LoadData) : LocoListState :=
  let idx := if d.selected_index ≥ (d.locomotives.length : Int) then 0 else d.selected_index
  ⟨d.locomotives, idx⟩

/-- `LocoList.load_from_file`, failed-read branch: empty roster. -/
def load_from_file_failed : LocoListState := ⟨[], 0⟩

/-! ### Roster extraction (`extract_locomotives_from_lclist`) -/

/-- `LocoList._extract_attribute`: find `attr_name="`, then the closing
quote, and return the text between. -/
def extract_attribute (xml_text attr_name : List Char) : Option (List Char) :=
  let pattern := attr_name ++ "=\"".data
  match strFind xml_text pattern with
  | none => none
  | some start_pos =>
    let value_start := start_pos + pattern.length
    match strFindFrom xml_text "\"".data value_start with
    | none => none
    | some value_end => some (pslice xml_text value_start value_end)

/-- Markers whose presence classifies an entry as a locomotive
*definition*. -/
def definitionMarkers : List (List Char) :=
  ["image=".data, "roadname=".data, "desc=".data, "dectype=".data,
    "owner=".data, "color=".data, "number=".data]

/-- Markers whose presence classifies an entry as a live *status update*. -/
def statusMarkers : List (List Char) :=
  ["V=".data, "dir=".data, "server=".data, "placing=".data,
    "runtime=".data, "throttleid=".data]

/-- The `elif loco_shortid and loco_shortid.strip()` fallback identifier. -/
def shortIdent : Option (List Char) → Option (List Char)
  | some s => if s ≠ [] ∧ pstrip s ≠ [] then some (pstrip s) else none
  | none => none

/-- The identifier choice: `id` stripped when truthy, stripped-nonempty
and not the literal `'model'`; otherwise fall back to `shortid`. -/
def pickIdentifier (loco_id loco_shortid : Option (List Char)) : Option (List Char) :=
  match loco_id with
  | some s =>
    if s ≠ [] ∧ pstrip s ≠ [] ∧ s ≠ "model".data then some (pstrip s)
    else shortIdent loco_shortid
  | none => shortIdent loco_shortid

/-- The `loco_number`-based display-name fallback
(`f"{identifier} #{loco_number.strip()}"`). -/
def numberDisplay (identifier : List Char) : Option (List Char) → List Char
  | some m =>
    if identifier ≠ [] ∧ m ≠ [] ∧ pstrip m ≠ [] then
      identifier ++ " #".data ++ pstrip m
    else identifier
  | none => identifier

/-- `LocoList._extract_loco_info_from_entry`: classify the entry, pick the
identifier (`id` stripped, unless empty/`'model'`, else `shortid`), and
synthesize the display name from `roadname`/`number`. -/
def extract_loco_info_from_entry (lc_entry : List Char) : Option LocoEntry :=
  let has_definition_attrs := definitionMarkers.any (containsSub lc_entry)
  let has_status_attrs := statusMarkers.any (containsSub lc_entry)
  if has_status_attrs && !has_definition_attrs then none
  else
    let loco_id := extract_attribute lc_entry "id".data
    let loco_shortid := extract_attribute lc_entry "shortid".data
    let loco_roadname := extract_attribute lc_entry "roadname".data
    let loco_number := extract_attribute lc_entry "number".data
    match pickIdentifier loco_id loco_shortid with
    | none => none
    | some identifier =>
      let display_name :=
        match loco_roadname with
        | some r =>
          if identifier ≠ [] ∧ r ≠ [] ∧ pstrip r ≠ [] then
            identifier ++ " (".data ++ pstrip r ++ ")".data
          else numberDisplay identifier loco_number
        | none => numberDisplay identifier loco_number
      some ⟨identifier, display_name⟩

/-- Result record of `extract_locomotives_from_lclist` (`total_found` is
`locomotives.length` and is not duplicated here). -/
structure ExtractResult where
  locomotives : List LocoEntry
  entries_processed : Nat
  deriving DecidableEq, Repr

/-- The `while True` scan over `<lc ` entries.  `start_pos` strictly
increases, so fuel `≥ len(text) + 1` is enough; fuel-indexed to keep the
recursion structural. -/
def extractLoopAux (text : List Char) : Nat → Nat → List LocoEntry × Nat
  | _, 0 => ([], 0)
  | start_pos, fuel + 1 =>
    match strFindFrom text "<lc ".data start_pos with
    | none => ([], 0)
    | some lc_pos =>
      let entry_end := strFindFrom text "/>".data lc_pos
      let next_lc := strFindFrom text "<lc ".data (lc_pos + 4)
      let lc_entry :=
        match entry_end, next_lc with
        | some e, some n =>
          if e < n then pslice text lc_pos (e + 2) else pslice text lc_pos n
        | some e, none => pslice text lc_pos (e + 2)
        | none, some n => pslice text lc_pos n
        | none, none => text.drop lc_pos
      let found := (extract_loco_info_from_entry lc_entry).toList
      match next_lc with
      | some n =>
        let r := extractLoopAux text n fuel
        (found ++ r.1, r.2 + 1)
      | none => (found, 1)

/-- The scan underlying `extractLoopAux`, factored out to talk about
order: the raw `<lc ` entries in the order the `while` loop visits them,
each paired with the buffer position it starts at.  The `lc_entry`
computation is the same as in `extractLoopAux`. -/
def scanEntryAux (text : List Char) : Nat → Nat → List (Nat × List Char)
  | _, 0 => []
  | start_pos, fuel + 1 =>
    match strFindFrom text "<lc ".data start_pos with
    | none => []
    | some lc_pos =>
      let entry_end := strFindFrom text "/>".data lc_pos
      let next_lc := strFindFrom text "<lc ".data (lc_pos + 4)
      let lc_entry :=
        match entry_end, next_lc with
        | some e, some n =>
          if e < n then pslice text lc_pos (e + 2) else pslice text lc_pos n
        | some e, none => pslice text lc_pos (e + 2)
        | none, some n => pslice text lc_pos n
        | none, none => text.drop lc_pos
      match next_lc with
      | some n => (lc_pos, lc_entry) :: scanEntryAux text n fuel
      | none => [(lc_pos, lc_entry)]

/-- The positions and raw texts of the `<lc ` entries of a buffer, in
scan order. -/
def scanEntries (lclist_xml : List Char) : List (Nat × List Char) :=
  scanEntryAux lclist_xml 0 (lclist_xml.length + 1)

/-- `LocoList.extract_locomotives_from_lclist`. -/
def extract_locomotives_from_lclist (lclist_xml : List Char) : ExtractResult :=
  let r := extractLoopAux lclist_xml 0 (lclist_xml.length + 1)
  ⟨r.1, r.2⟩

/-- The add-loop of `update_from_rocrail_response`: add each extracted
locomotive, counting successes, breaking once `added` reaches
`max_locos`. -/
def commitAdds : LocoListState → List LocoEntry → Nat → LocoListState × Nat
  | st, [], added => (st, added)
  | st, info :: rest, added =>
    let p := add_locomotive st info.id (some info.name)
    if p.2 then
      if added + 1 ≥ max_locos then (p.1, added + 1)
      else commitAdds p.1 rest (added + 1)
    else commitAdds p.1 rest added

/-- `LocoList.update_from_rocrail_response`: require a complete
`<lclist>…</lclist>` span, extract, and on a nonempty extraction clear
the roster and re-add (persistence side effect not modelled). -/
def update_from_rocrail_response (st : LocoListState) (xml_response : List Char) :
    LocoListState × Bool :=
  if containsSub xml_response "<lclist>".data && containsSub xml_response "</lclist>".data then
    match strFind xml_response "<lclist>".data, strFind xml_response "</lclist>".data with
    | some start_idx, some close_idx =>
      let end_idx := close_idx + ("</lclist>".data).length
      let lclist_section := pslice xml_response start_idx end_idx
      let found := (extract_locomotives_from_lclist lclist_section).locomotives
      if found = [] then (st, false)
      else
        let p := commitAdds (clearList st) found 0
        if 0 < p.2 then (p.1, true) else (p.1, false)
    | _, _ => (st, false)
  else (st, false)

/-! ### Sorting lemmas -/

/-- The roster is in the order `_sort_alphabetically` leaves it:
adjacent-free pairwise ordering by uppercased name. -/
def SortedByName (l : List LocoEntry) : Prop :=
  l.Pairwise (fun a b => nameLe a b = true)

theorem lexLe_total (a : List Char) : ∀ b, lexLe a b = true ∨ lexLe b a = true := by
  induction a with
  | nil => intro b; left; rfl
  | cons x xs ih =>
    intro b
    cases b with
    | nil => right; rfl
    | cons y ys =>
      by_cases hxy : x.toNat = y.toNat
      · rcases ih ys with h | h
        · left; simp [lexLe, hxy, h]
        · right; simp [lexLe, hxy.symm, h]
      · by_cases hlt : x.toNat < y.toNat
        · left; simp [lexLe, hxy, hlt]
        · right
          have hne : y.toNat ≠ x.toNat := fun h => hxy h.symm
          simp [lexLe, hne]
          omega

theorem lexLe_trans (a : List Char) :
    ∀ b c, lexLe a b = true → lexLe b c = true → lexLe a c = true := by
  induction a with
  | nil => intro b c _ _; rfl
  | cons x xs ih =>
    intro b c hab hbc
    cases b with
    | nil => simp [lexLe] at hab
    | cons y ys =>
      cases c with
      | nil => simp [lexLe] at hbc
      | cons z zs =>
        simp only [lexLe] at hab hbc ⊢
        by_cases hxy : x.toNat = y.toNat <;> by_cases hyz : y.toNat = z.toNat
        · have hxz : x.toNat = z.toNat := hxy.trans hyz
          simp only [hxy, if_true] at hab
          simp only [hyz, if_true] at hbc
          simp [hxz, ih ys zs hab hbc]
        · have : ¬ x.toNat = z.toNat := by omega
          simp only [hxy, if_true] at hab
          simp only [hyz, if_false] at hbc
          simp only [this, if_false]
          simp at hbc ⊢
          omega
        · have : ¬ x.toNat = z.toNat := by omega
          simp only [hxy, if_false] at hab
          simp only [hyz, if_true] at hbc
          simp only [this, if_false]
          simp at hab ⊢
          omega
        · simp only [hxy, if_false] at hab
          simp only [hyz, if_false] at hbc
          simp at hab hbc
          have hxz : ¬ x.toNat = z.toNat := by omega
          simp only [hxz, if_false]
          simp
          omega

theorem nameLe_total (a b : LocoEntry) : nameLe a b = true ∨ nameLe b a = true :=
  lexLe_total (nameKey a) (nameKey b)

theorem nameLe_trans {a b c : LocoEntry} (hab : nameLe a b = true)
    (hbc : nameLe b c = true) : nameLe a c = true :=
  lexLe_trans (nameKey a) (nameKey b) (nameKey c) hab hbc

theorem insertByName_perm (x : LocoEntry) (l : List LocoEntry) :
    List.Perm (insertByName x l) (x :: l) := by
  induction l with
  | nil => simp [insertByName]
  | cons y ys ih =>
    simp only [insertByName]
    split
    · exact (ih.cons y).trans (List.Perm.swap x y ys)
    · exact List.Perm.refl _

theorem sortByName_perm (l : List LocoEntry) : List.Perm (sortByName l) l := by
  induction l with
  | nil => simp [sortByName]
  | cons x xs ih =>
    exact (insertByName_perm x (sortByName xs)).trans (ih.cons x)

theorem mem_insertByName {x z : LocoEntry} {l : List LocoEntry} :
    z ∈ insertByName x l ↔ z = x ∨ z ∈ l := by
  rw [(insertByName_perm x l).mem_iff]
  simp

theorem pairwise_insertByName {x : LocoEntry} {l : List LocoEntry}
    (hl : SortedByName l) : SortedByName (insertByName x l) := by
  induction l with
  | nil => simp [insertByName, SortedByName]
  | cons y ys ih =>
    rcases List.pairwise_cons.mp hl with ⟨hy, hys⟩
    simp only [insertByName]
    split
    · next hxy =>
      refine List.pairwise_cons.mpr ⟨?_, ih hys⟩
      intro z hz
      rcases mem_insertByName.mp hz with rfl | hz
      · exact hxy
      · exact hy z hz
    · next hxy =>
      have hxyT : nameLe x y = true := by
        rcases nameLe_total x y with h | h
        · exact h
        · exact absurd h (by simp [hxy])
      refine List.pairwise_cons.mpr ⟨?_, hl⟩
      intro z hz
      rcases List.mem_cons.mp hz with rfl | hz
      · exact hxyT
      · exact nameLe_trans hxyT (hy z hz)

theorem sortByName_sorted (l : List LocoEntry) : SortedByName (sortByName l) := by
  induction l with
  | nil => simp [sortByName, SortedByName]
  | cons x xs ih => exact pairwise_insertByName ih

/-! ### The roster invariant -/

/-- The spec's roster invariant (§3): at most 5 entries, pairwise-distinct
non-empty ids, and a valid selection index unless the roster is empty. -/
def InvLL (st : LocoListState) : Prop :=
  st.locomotives.length ≤ max_locos ∧
  (st.locomotives.map LocoEntry.id).Nodup ∧
  (∀ l ∈ st.locomotives, l.id ≠ []) ∧
  (st.locomotives = [] ∨
    (0 ≤ st.selected_index ∧ st.selected_index < st.locomotives.length))

instance (st : LocoListState) : Decidable (InvLL st) := by
  unfold InvLL; infer_instance

theorem not_any_id {L : List LocoEntry} {lid : List Char}
    (h : ¬ L.any (fun l => l.id == lid) = true) : lid ∉ L.map LocoEntry.id := by
  intro hmem
  rcases List.mem_map.mp hmem with ⟨e, he, hid⟩
  exact h (List.any_eq_true.mpr ⟨e, he, by simp [hid]⟩)

/-- `add_locomotive` keeps the ids pairwise distinct. -/
theorem add_locomotive_nodup (st : LocoListState) (lid : List Char)
    (oname : Option (List Char)) (hnd : (st.locomotives.map LocoEntry.id).Nodup) :
    ((add_locomotive st lid oname).1.locomotives.map LocoEntry.id).Nodup := by
  unfold add_locomotive
  split
  · exact hnd
  · next hany =>
    split
    · next hlen =>
      have hperm := sortByName_perm
        (st.locomotives ++ [⟨lid, oname.getD lid⟩])
      have hmapperm := hperm.map LocoEntry.id
      simp only [sort_alphabetically]
      refine hmapperm.nodup_iff.mpr ?_
      rw [List.map_append]
      simp only [List.map_cons, List.map_nil]
      rw [List.nodup_append]
      refine ⟨hnd, List.nodup_singleton lid, ?_⟩
      intro a ha hb
      simp only [List.mem_singleton] at hb
      subst hb
      exact not_any_id hany ha
    · exact hnd

/-- `add_locomotive` preserves the roster invariant when the added id is
non-empty. -/
theorem add_locomotive_inv (st : LocoListState) (lid : List Char)
    (oname : Option (List Char)) (hinv : InvLL st) (hid : lid ≠ []) :
    InvLL (add_locomotive st lid oname).1 := by
  obtain ⟨hlen5, hnd, hne, _hsel⟩ := hinv
  have hnd' := add_locomotive_nodup st lid oname hnd
  revert hnd'
  unfold add_locomotive
  split
  · intro hnd'
    exact ⟨hlen5, hnd, hne, _hsel⟩
  · next hany =>
    split
    · next hlen =>
      intro hnd'
      have hperm := sortByName_perm (st.locomotives ++ [⟨lid, oname.getD lid⟩])
      have hlen' := hperm.length_eq
      rw [List.length_append, List.length_singleton] at hlen'
      refine ⟨?_, hnd', ?_, ?_⟩
      · simpa [sort_alphabetically, hlen'] using hlen
      · intro l hl
        have : l ∈ st.locomotives ++ [⟨lid, oname.getD lid⟩] := hperm.mem_iff.mp hl
        rcases List.mem_append.mp this with h | h
        · exact hne l h
        · simp only [List.mem_singleton] at h
          subst h
          exact hid
      · right
        constructor
        · simp [sort_alphabetically]
        · simp only [sort_alphabetically, hlen']
          have : 0 < st.locomotives.length + 1 := Nat.succ_pos _
          exact_mod_cast this
    · intro hnd'
      exact ⟨hlen5, hnd, hne, _hsel⟩

/-- `select_next` preserves the invariant. -/
theorem select_next_inv (st : LocoListState) (hinv : InvLL st) :
    InvLL (select_next st).1 := by
  obtain ⟨hlen5, hnd, hne, hsel⟩ := hinv
  unfold select_next
  split
  · exact ⟨hlen5, hnd, hne, hsel⟩
  · next hlen =>
    have hpos : (0 : Int) < (st.locomotives.length : Int) := by
      have : 1 < st.locomotives.length := by omega
      exact_mod_cast Nat.lt_of_lt_of_le Nat.zero_lt_one this.le
    refine ⟨hlen5, hnd, hne, Or.inr ⟨?_, ?_⟩⟩
    · exact Int.emod_nonneg _ (by omega)
    · exact Int.emod_lt_of_pos _ hpos

/-- `select_previous` preserves the invariant. -/
theorem select_previous_inv (st : LocoListState) (hinv : InvLL st) :
    InvLL (select_previous st).1 := by
  obtain ⟨hlen5, hnd, hne, hsel⟩ := hinv
  unfold select_previous
  split
  · exact ⟨hlen5, hnd, hne, hsel⟩
  · next hlen =>
    have hpos : (0 : Int) < (st.locomotives.length : Int) := by
      have : 1 < st.locomotives.length := by omega
      exact_mod_cast Nat.lt_of_lt_of_le Nat.zero_lt_one this.le
    refine ⟨hlen5, hnd, hne, Or.inr ⟨?_, ?_⟩⟩
    · exact Int.emod_nonneg _ (by omega)
    · exact Int.emod_lt_of_pos _ hpos

/-- `select_by_index` preserves the invariant. -/
theorem select_by_index_inv (st : LocoListState) (i : Int) (hinv : InvLL st) :
    InvLL (select_by_index st i).1 := by
  obtain ⟨hlen5, hnd, hne, hsel⟩ := hinv
  unfold select_by_index
  split
  · next hcond => exact ⟨hlen5, hnd, hne, Or.inr hcond⟩
  · exact ⟨hlen5, hnd, hne, hsel⟩

/-- `clear` trivially re-establishes the invariant. -/
theorem clearList_inv (st : LocoListState) : InvLL (clearList st) := by
  refine ⟨by simp [clearList, max_locos], by simp [clearList], ?_, Or.inl rfl⟩
  intro l hl
  simp [clearList] at hl

/-! ### Extraction and commit lemmas -/

theorem shortIdent_ne_nil {o : Option (List Char)} {t : List Char}
    (h : shortIdent o = some t) : t ≠ [] := by
  cases o with
  | none => simp [shortIdent] at h
  | some s =>
    simp only [shortIdent] at h
    split at h
    · next hc =>
      cases h
      exact hc.2
    · cases h

theorem pickIdentifier_ne_nil {a b : Option (List Char)} {t : List Char}
    (h : pickIdentifier a b = some t) : t ≠ [] := by
  cases a with
  | none => exact shortIdent_ne_nil h
  | some s =>
    simp only [pickIdentifier] at h
    split at h
    · next hc =>
      cases h
      exact hc.2.1
    · exact shortIdent_ne_nil h

/-- Every entry the extraction step returns carries a non-empty
identifier (the `loco_id.strip()` / `loco_shortid.strip()` guards). -/
theorem extract_loco_info_id_ne_nil {entry : List Char} {e : LocoEntry}
    (h : extract_loco_info_from_entry entry = some e) : e.id ≠ [] := by
  simp only [extract_loco_info_from_entry] at h
  split at h
  · cases h
  · split at h
    · cases h
    · next identifier heq =>
      cases h
      exact pickIdentifier_ne_nil heq

theorem extractLoopAux_ids (text : List Char) :
    ∀ fuel start_pos, ∀ e ∈ (extractLoopAux text start_pos fuel).1, e.id ≠ [] := by
  intro fuel
  induction fuel with
  | zero => intro s e he; simp [extractLoopAux] at he
  | succ fuel ih =>
    intro s e he
    simp only [extractLoopAux] at he
    split at he
    · simp at he
    · next lc_pos _ =>
      split at he
      · next n _ =>
        simp only [List.mem_append] at he
        rcases he with he | he
        · exact extract_loco_info_id_ne_nil (Option.mem_toList.mp he)
        · exact ih n e he
      · exact extract_loco_info_id_ne_nil (Option.mem_toList.mp he)

/-- All ids delivered by `extract_locomotives_from_lclist` are
non-empty. -/
theorem extract_locomotives_ids (lclist_xml : List Char) :
    ∀ e ∈ (extract_locomotives_from_lclist lclist_xml).locomotives, e.id ≠ [] := by
  intro e he
  exact extractLoopAux_ids lclist_xml (lclist_xml.length + 1) 0 e he

theorem strFindFrom_ge {s pat : List Char} {start i : Nat}
    (h : strFindFrom s pat start = some i) : start ≤ i := by
  simp only [strFindFrom, Option.map_eq_some'] at h
  obtain ⟨j, _, rfl⟩ := h
  omega

/-- The extraction result is exactly the in-order `filterMap` of the
scanned entries: locomotives come out in the order their entries are
visited. -/
theorem extractLoopAux_eq_filterMap (text : List Char) :
    ∀ fuel start_pos,
      (extractLoopAux text start_pos fuel).1 =
        ((scanEntryAux text start_pos fuel).map Prod.snd).filterMap
          extract_loco_info_from_entry := by
  intro fuel
  induction fuel with
  | zero => intro s; simp [extractLoopAux, scanEntryAux]
  | succ fuel ih =>
    intro s
    simp only [extractLoopAux, scanEntryAux]
    cases hfind : strFindFrom text "<lc ".data s with
    | none => simp
    | some lc_pos =>
      simp only []
      cases hnext : strFindFrom text "<lc ".data (lc_pos + 4) with
      | none =>
        simp only [List.map_cons, List.map_nil, List.filterMap]
        cases hinfo : extract_loco_info_from_entry
            (match strFindFrom text "/>".data lc_pos,
                (none : Option Nat) with
              | some e, some n =>
                if e < n then pslice text lc_pos (e + 2) else pslice text lc_pos n
              | some e, none => pslice text lc_pos (e + 2)
              | none, some n => pslice text lc_pos n
              | none, none => text.drop lc_pos) <;>
          simp [hinfo]
      | some n =>
        simp only [List.map_cons, List.filterMap_cons, ih n]
        cases hinfo : extract_loco_info_from_entry
            (match strFindFrom text "/>".data lc_pos,
                (some n : Option Nat) with
              | some e, some n =>
                if e < n then pslice text lc_pos (e + 2) else pslice text lc_pos n
              | some e, none => pslice text lc_pos (e + 2)
              | none, some n => pslice text lc_pos n
              | none, none => text.drop lc_pos) <;>
          simp [hinfo]

/-- Every scanned entry starts at or after the scan position that found
it. -/
theorem scanEntryAux_fst_ge (text : List Char) :
    ∀ fuel start_pos, ∀ x ∈ scanEntryAux text start_pos fuel, start_pos ≤ x.1 := by
  intro fuel
  induction fuel with
  | zero => intro s x hx; simp [scanEntryAux] at hx
  | succ fuel ih =>
    intro s x hx
    simp only [scanEntryAux] at hx
    split at hx
    · simp at hx
    · next lc_pos hfind =>
      split at hx
      · next n hnext =>
        simp only [List.mem_cons] at hx
        rcases hx with rfl | hx
        · exact strFindFrom_ge hfind
        · have h1 := strFindFrom_ge hfind
          have h2 := strFindFrom_ge hnext
          have h3 := ih n x hx
          omega
      · simp only [List.mem_singleton] at hx
        subst hx
        exact strFindFrom_ge hfind

/-- The scan positions are strictly increasing: the entries are visited
in document order. -/
theorem scanEntryAux_fst_sorted (text : List Char) :
    ∀ fuel start_pos,
      ((scanEntryAux text start_pos fuel).map Prod.fst).Pairwise (· < ·) := by
  intro fuel
  induction fuel with
  | zero => intro s; simp [scanEntryAux]
  | succ fuel ih =>
    intro s
    simp only [scanEntryAux]
    split
    · simp
    · next lc_pos hfind =>
      split
      · next n hnext =>
        simp only [List.map_cons]
        refine List.pairwise_cons.mpr ⟨?_, ih n⟩
        intro q hq
        rcases List.mem_map.mp hq with ⟨x, hx, rfl⟩
        have h2 := strFindFrom_ge hnext
        have h3 := scanEntryAux_fst_ge text fuel n x hx
        omega
      · simp

/-- Each scanned entry is the slice of the buffer that starts at its
recorded position. -/
theorem scanEntryAux_snd_slice (text : List Char) :
    ∀ fuel start_pos, ∀ x ∈ scanEntryAux text start_pos fuel,
      ∃ k, x.2 = (text.drop x.1).take k := by
  intro fuel
  induction fuel with
  | zero => intro s x hx; simp [scanEntryAux] at hx
  | succ fuel ih =>
    intro s x hx
    simp only [scanEntryAux] at hx
    split at hx
    · simp at hx
    · next lc_pos hfind =>
      split at hx
      · next n hnext =>
        simp only [List.mem_cons] at hx
        rcases hx with rfl | hx
        · split
          · next e n' hee hne =>
            split
            · exact ⟨e + 2 - lc_pos, rfl⟩
            · exact ⟨n' - lc_pos, rfl⟩
          · next e hee hne => exact ⟨e + 2 - lc_pos, rfl⟩
          · next n' hee hne => exact ⟨n' - lc_pos, rfl⟩
          · next hee hne => exact ⟨(text.drop lc_pos).length, (List.take_length _).symm⟩
        · exact ih n x hx
      · simp only [List.mem_singleton] at hx
        subst hx
        split
        · next e n' hee hne =>
          split
          · exact ⟨e + 2 - lc_pos, rfl⟩
          · exact ⟨n' - lc_pos, rfl⟩
        · next e hee hne => exact ⟨e + 2 - lc_pos, rfl⟩
        · next n' hee hne => exact ⟨n' - lc_pos, rfl⟩
        · next hee hne => exact ⟨(text.drop lc_pos).length, (List.take_length _).symm⟩

theorem add_locomotive_of_false (st : LocoListState) (lid : List Char)
    (oname : Option (List Char)) (h : (add_locomotive st lid oname).2 = false) :
    (add_locomotive st lid oname).1 = st := by
  revert h
  unfold add_locomotive
  split
  · intro _; rfl
  · split
    · intro h; cases h
    · intro _; rfl

/-- A successful `add_locomotive` leaves a sorted roster with the
selection reset to the first entry. -/
theorem add_locomotive_sorted_of_true (st : LocoListState) (lid : List Char)
    (oname : Option (List Char)) (h : (add_locomotive st lid oname).2 = true) :
    SortedByName (add_locomotive st lid oname).1.locomotives ∧
      (add_locomotive st lid oname).1.selected_index = 0 := by
  revert h
  unfold add_locomotive
  split
  · intro h; cases h
  · split
    · intro _
      exact ⟨sortByName_sorted _, rfl⟩
    · intro h; cases h

theorem commitAdds_inv :
    ∀ (infos : List LocoEntry) (st : LocoListState) (added : Nat),
      InvLL st → (∀ i ∈ infos, i.id ≠ []) → InvLL (commitAdds st infos added).1 := by
  intro infos
  induction infos with
  | nil => intro st added h _; exact h
  | cons info rest ih =>
    intro st added h hne
    have hadd := add_locomotive_inv st info.id (some info.name) h
      (hne info (List.mem_cons_self _ _))
    simp only [commitAdds]
    split
    · split
      · exact hadd
      · exact ih _ _ hadd (fun i hi => hne i (List.mem_cons_of_mem _ hi))
    · exact ih _ _ hadd (fun i hi => hne i (List.mem_cons_of_mem _ hi))

theorem commitAdds_nodup :
    ∀ (infos : List LocoEntry) (st : LocoListState) (added : Nat),
      (st.locomotives.map LocoEntry.id).Nodup →
      ((commitAdds st infos added).1.locomotives.map LocoEntry.id).Nodup := by
  intro infos
  induction infos with
  | nil => intro st added h; exact h
  | cons info rest ih =>
    intro st added h
    have hadd := add_locomotive_nodup st info.id (some info.name) h
    simp only [commitAdds]
    split
    · split
      · exact hadd
      · exact ih _ _ hadd
    · exact ih _ _ hadd

theorem commitAdds_sorted :
    ∀ (infos : List LocoEntry) (st : LocoListState) (added : Nat),
      SortedByName st.locomotives → st.selected_index = 0 →
      SortedByName (commitAdds st infos added).1.locomotives ∧
        (commitAdds st infos added).1.selected_index = 0 := by
  intro infos
  induction infos with
  | nil => intro st added h hi; exact ⟨h, hi⟩
  | cons info rest ih =>
    intro st added h hi
    simp only [commitAdds]
    split
    · next htrue =>
      have hadd := add_locomotive_sorted_of_true st info.id (some info.name) htrue
      split
      · exact hadd
      · exact ih _ _ hadd.1 hadd.2
    · next hfalse =>
      have heq := add_locomotive_of_false st info.id (some info.name)
        (by simpa using hfalse)
      rw [heq]
      exact ih _ _ h hi

/-- `update_from_rocrail_response` preserves the roster invariant: either
it leaves the state alone, or it rebuilds it from `clear` through
`add_locomotive` on extracted entries, whose ids are non-empty. -/
theorem update_inv (st : LocoListState) (xml : List Char) (hinv : InvLL st) :
    InvLL (update_from_rocrail_response st xml).1 := by
  simp only [update_from_rocrail_response]
  split
  · split
    · split
      · exact hinv
      · next hfound =>
        have hids := extract_locomotives_ids
          (pslice xml ((strFind xml "<lclist>".data).getD 0)
            (((strFind xml "</lclist>".data).getD 0) + ("</lclist>".data).length))
        split
        · next =>
          exact commitAdds_inv _ _ _ (clearList_inv st)
            (by
              intro i hi
              exact extract_locomotives_ids _ i hi)
        · next =>
          exact commitAdds_inv _ _ _ (clearList_inv st)
            (by
              intro i hi
              exact extract_locomotives_ids _ i hi)
    · exact hinv
  · exact hinv

/-- A committing `update_from_rocrail_response` leaves a sorted roster
with the selection reset to the first entry. -/
theorem update_sorted_of_true (st : LocoListState) (xml : List Char)
    (h : (update_from_rocrail_response st xml).2 = true) :
    SortedByName (update_from_rocrail_response st xml).1.locomotives ∧
      (update_from_rocrail_response st xml).1.selected_index = 0 := by
  revert h
  simp only [update_from_rocrail_response]
  split
  · split
    · split
      · intro h; cases h
      · split
        · intro _
          exact commitAdds_sorted _ _ _ (by simp [clearList, SortedByName]) rfl
        · intro h; cases h
    · intro h; cases h
  · intro h; cases h

/-- `update_from_rocrail_response` either leaves the state untouched or
commits a roster whose ids are pairwise distinct. -/
theorem update_nodup_or_eq (st : LocoListState) (xml : List Char) :
    (update_from_rocrail_response st xml).1 = st ∨
      ((update_from_rocrail_response st xml).1.locomotives.map LocoEntry.id).Nodup := by
  simp only [update_from_rocrail_response]
  split
  · split
    · split
      · left; rfl
      · right
        split
        · exact commitAdds_nodup _ _ _ (by simp [clearList])
        · exact commitAdds_nodup _ _ _ (by simp [clearList])
    · left; rfl
  · left; rfl

/-- `load_from_file` re-establishes the invariant when the file content
itself has the invariant's list shape and a non-negative stored index. -/
theorem load_from_file_inv (d : LoadData)
    (h1 : d.locomotives.length ≤ max_locos)
    (h2 : (d.locomotives.map LocoEntry.id).Nodup)
    (h3 : ∀ l ∈ d.locomotives, l.id ≠ [])
    (h4 : 0 ≤ d.selected_index) :
    InvLL (load_from_file d) := by
  refine ⟨h1, h2, h3, ?_⟩
  by_cases hl : d.locomotives = []
  · exact Or.inl hl
  · right
    have hlen : 0 < d.locomotives.length := List.length_pos.mpr hl
    simp only [load_from_file]
    split
    · exact ⟨le_refl 0, by exact_mod_cast hlen⟩
    · next hlt => exact ⟨h4, by omega⟩

/-! ## Claim theorems for the roster -/

/-- The Scenario B roster buffer from the spec. -/
def scenarioBBuffer : List Char :=
  "<lclist><lc id=\"BR01\" roadname=\"Express\"/><lc id=\"BR02\" V=\"10\" dir=\"true\"/></lclist>".data

/-- C4: from the Scenario B buffer the extraction yields exactly one
locomotive, id `BR01` with display name `BR01 (Express)`; the second
`<lc>` entry (only `V`/`dir` attributes) is processed but discarded as a
status update. -/
theorem scenario_b_extraction :
    (extract_locomotives_from_lclist scenarioBBuffer).locomotives =
      [⟨"BR01".data, "BR01 (Express)".data⟩] ∧
    (extract_locomotives_from_lclist scenarioBBuffer).entries_processed = 2 := by
  decide

/-- An lclist with two identical definition entries. -/
def dupLclistBuffer : List Char :=
  "<lclist><lc id=\"A\" roadname=\"X\"/><lc id=\"A\" roadname=\"X\"/></lclist>".data

/-- C5 counterexample: on an input with two definition entries carrying
the same id, the extraction pass returns both — two returned entries
share the id `A`, so the pass itself does not deduplicate. -/
theorem extraction_dedup_counterexample :
    ((extract_locomotives_from_lclist dupLclistBuffer).locomotives.map LocoEntry.id) =
      ["A".data, "A".data] ∧
    ¬ ((extract_locomotives_from_lclist dupLclistBuffer).locomotives.map LocoEntry.id).Nodup := by
  decide

/-- C5 amended: the extraction pass returns the identities in document
order but retains duplicates; deduplication by id happens when the result
is committed through `add_locomotive` inside `update_from_rocrail_response`,
so a committed roster never holds two entries with the same id.
Document order, formally: for every buffer, the returned list is the
in-order `filterMap` of the scanned `<lc ` entries, where each scanned
entry is the slice of the buffer starting at its recorded position and
those positions are strictly increasing left to right. -/
theorem extraction_order_commit_dedup :
    (∀ xml : List Char,
      (extract_locomotives_from_lclist xml).locomotives =
        ((scanEntries xml).map Prod.snd).filterMap extract_loco_info_from_entry ∧
      ((scanEntries xml).map Prod.fst).Pairwise (· < ·) ∧
      ∀ x ∈ scanEntries xml, ∃ k, x.2 = (xml.drop x.1).take k) ∧
    ((extract_locomotives_from_lclist dupLclistBuffer).locomotives =
      [⟨"A".data, "A (X)".data⟩, ⟨"A".data, "A (X)".data⟩]) ∧
    ((update_from_rocrail_response ⟨[], 0⟩ dupLclistBuffer).1.locomotives =
      [⟨"A".data, "A (X)".data⟩]) ∧
    ∀ st xml, (update_from_rocrail_response st xml).1 = st ∨
      ((update_from_rocrail_response st xml).1.locomotives.map LocoEntry.id).Nodup := by
  refine ⟨?_, by decide, by decide, update_nodup_or_eq⟩
  intro xml
  exact ⟨extractLoopAux_eq_filterMap xml _ 0, scanEntryAux_fst_sorted xml _ 0,
    scanEntryAux_snd_slice xml _ 0⟩

/-- C5 witness: the order facts evaluated on the duplicate-id buffer —
the scan visits positions 8 then 33, and the entry recorded at
position 8 is a slice of the buffer starting there. -/
theorem extraction_order_commit_dedup_witness :
    ((extract_locomotives_from_lclist dupLclistBuffer).locomotives =
      ((scanEntries dupLclistBuffer).map Prod.snd).filterMap
        extract_loco_info_from_entry) ∧
    ((scanEntries dupLclistBuffer).map Prod.fst).Pairwise (· < ·) ∧
    ((8, "<lc id=\"A\" roadname=\"X\"/>".data) ∈ scanEntries dupLclistBuffer ∧
      ∃ k, ((8, "<lc id=\"A\" roadname=\"X\"/>".data) : Nat × List Char).2 =
        (dupLclistBuffer.drop
          ((8, "<lc id=\"A\" roadname=\"X\"/>".data) : Nat × List Char).1).take k) := by
  have h := (extraction_order_commit_dedup.1 dupLclistBuffer)
  exact ⟨h.1, h.2.1,
    by decide,
    h.2.2 (8, "<lc id=\"A\" roadname=\"X\"/>".data) (by decide)⟩

/-- C6 counterexample: `load_from_file` re-validates only the upper bound
of the stored index, so a stale file holding index `-1` with one
locomotive loads into a state that violates the roster invariant. -/
theorem roster_invariant_counterexample :
    ¬ InvLL (load_from_file ⟨[⟨"BR103".data, "BR103".data⟩], -1⟩) := by
  decide

/-- C6 amended: all in-memory roster operations preserve the invariant —
`add_locomotive` for a non-empty id, the three selection moves,
`clear`, and `update_from_rocrail_response` (whose extracted ids are
non-empty by construction); `load_from_file` re-establishes it provided
the file content itself has at most 5 pairwise-distinct non-empty ids
and a non-negative stored index (which any file written by
`save_to_file` from an invariant state satisfies). -/
theorem roster_invariant_amended :
    (∀ st lid oname, InvLL st → lid ≠ [] → InvLL (add_locomotive st lid oname).1) ∧
    (∀ st, InvLL st → InvLL (select_next st).1) ∧
    (∀ st, InvLL st → InvLL (select_previous st).1) ∧
    (∀ st i, InvLL st → InvLL (select_by_index st i).1) ∧
    (∀ st, InvLL (clearList st)) ∧
    (∀ st xml, InvLL st → InvLL (update_from_rocrail_response st xml).1) ∧
    (∀ d : LoadData, d.locomotives.length ≤ max_locos →
      (d.locomotives.map LocoEntry.id).Nodup →
      (∀ l ∈ d.locomotives, l.id ≠ []) →
      0 ≤ d.selected_index → InvLL (load_from_file d)) :=
  ⟨add_locomotive_inv, select_next_inv, select_previous_inv,
    select_by_index_inv, clearList_inv, update_inv, load_from_file_inv⟩

/-- C6 witness: invariant preservation evaluated at concrete states for
an `add_locomotive` call and a well-formed persistence file. -/
theorem roster_invariant_amended_witness :
    InvLL (add_locomotive ⟨[], 0⟩ "BR103".data none).1 ∧
      InvLL (load_from_file ⟨[⟨"BR103".data, "BR103".data⟩], 0⟩) :=
  ⟨roster_invariant_amended.1 ⟨[], 0⟩ "BR103".data none (by decide) (by decide),
    roster_invariant_amended.2.2.2.2.2.2 ⟨[⟨"BR103".data, "BR103".data⟩], 0⟩
      (by decide) (by decide) (by decide) (by decide)⟩

/-- The roster state reached from empty by adding `A` and `B` and then
selecting the second entry. -/
def rosterABSelected : LocoListState :=
  (select_next (add_locomotive (add_locomotive ⟨[], 0⟩ "A".data none).1 "B".data none).1).1

/-- C10 counterexample: a failed `add_locomotive` call (duplicate id `A`)
leaves the selection where it was, so after this call `selected_index`
is 1, not 0 — "after every add_locomotive call" is too strong. -/
theorem sorted_reset_counterexample :
    (add_locomotive rosterABSelected "A".data none).1.selected_index = 1 ∧
    ¬ (add_locomotive rosterABSelected "A".data none).1.selected_index = 0 := by
  decide

/-- The Scenario-style lclist whose document order (`Z9` before `A1`) is
not alphabetical. -/
def docOrderBuffer : List Char :=
  "<lclist><lc id=\"Z9\" roadname=\"R\"/><lc id=\"A1\" roadname=\"S\"/></lclist>".data

/-- C10 amended: after every `add_locomotive` call that actually adds
(returns `True`) and after every committing `update_from_rocrail_response`,
the stored list is sorted by uppercased display name and `selected_index`
is reset to 0; the committed order is the sort order, not document order
(`Z9`,`A1` commits as `A1`,`Z9`), so a previous selection is not
preserved. -/
theorem sorted_roster_amended :
    (∀ st lid oname, (add_locomotive st lid oname).2 = true →
      SortedByName (add_locomotive st lid oname).1.locomotives ∧
        (add_locomotive st lid oname).1.selected_index = 0) ∧
    (∀ st xml, (update_from_rocrail_response st xml).2 = true →
      SortedByName (update_from_rocrail_response st xml).1.locomotives ∧
        (update_from_rocrail_response st xml).1.selected_index = 0) ∧
    ((update_from_rocrail_response ⟨[], 0⟩ docOrderBuffer).1.locomotives.map LocoEntry.id =
      ["A1".data, "Z9".data]) :=
  ⟨add_locomotive_sorted_of_true, update_sorted_of_true, by decide⟩

/-- C10 witness: a successful add evaluated at a concrete state. -/
theorem sorted_roster_amended_witness :
    SortedByName (add_locomotive ⟨[], 0⟩ "BR103".data none).1.locomotives ∧
      (add_locomotive ⟨[], 0⟩ "BR103".data none).1.selected_index = 0 :=
  sorted_roster_amended.1 ⟨[], 0⟩ "BR103".data none (by decide)

/-! ## Connection / reconnection engine (`lib/protocol/rocrail_protocol.py`)

The fields of `RocrailProtocol` the reconnection logic reads and writes,
and the handlers that mutate them, modelled as a state machine.  Each
handler runs to completion per invocation (MicroPython `_thread` with the
GIL serialises the byte-code of these short guard sequences; the callers
additionally pre-check `reconnect_running`). -/

/-- `self.rocrail_status` values. -/
inductive RStatus
  | disconnected
  | connecting
  | connected
  | lost
  | reconnecting
  deriving DecidableEq, Repr

/-- The protocol-object fields the connection lifecycle touches.
`host_set` abbreviates "host and port are stored (non-`None`)";
`loops_started` is a ghost counter of how many reconnection loops were
ever launched (each `_thread.start_new_thread(self._reconnect_loop, ())`
call). -/
structure ProtoState where
  rocrail_status : RStatus
  reconnect_enabled : Bool
  reconnect_running : Bool
  reconnect_attempts : Nat
  locomotives_loaded : Bool
  host_set : Bool
  loops_started : Nat
  deriving DecidableEq, Repr

/-- The `__init__` state. -/
def initProto : ProtoState :=
  { rocrail_status := .disconnected
    reconnect_enabled := false
    reconnect_running := false
    reconnect_attempts := 0
    locomotives_loaded := false
    host_set := false
    loops_started := 0 }

/-- `RocrailProtocol._start_reconnect_thread`: a no-op unless reconnect is
enabled, no loop is already running, and host/port are configured;
otherwise it arms the flag, resets the attempt counter and launches the
loop. -/
def start_reconnect_thread (s : ProtoState) : ProtoState :=
  if !s.reconnect_enabled then s
  else if s.reconnect_running then s
  else if !s.host_set then s
  else
    { s with
      reconnect_running := true
      reconnect_attempts := 0
      loops_started := s.loops_started + 1 }

/-- `RocrailProtocol.start_connection`, failure branch: host/port are
stored, status passes through `connecting` to `lost`, the socket is
closed, and — explicitly — no auto-reconnect is triggered.  The Python
method returns `False`. -/
def start_connection_fail (s : ProtoState) : ProtoState × Bool :=
  ({ s with host_set := true, rocrail_status := .lost }, false)

/-- `RocrailProtocol.start_connection`, success branch. -/
def start_connection_ok (s : ProtoState) : ProtoState × Bool :=
  ({ s with host_set := true, rocrail_status := .connected }, true)

/-- `RocrailProtocol.handle_data` on a buffer that completes the roster
(`update_from_rocrail_response` returned `True`): any received data first
restores `rocrail_status` to `connected`; when locomotives are already
loaded the method returns before parsing, otherwise it marks them loaded
and — exactly here — sets `reconnect_enabled`. -/
def handle_data_roster (s : ProtoState) : ProtoState :=
  if s.locomotives_loaded then { s with rocrail_status := .connected }
  else
    { s with
      rocrail_status := .connected
      locomotives_loaded := true
      reconnect_enabled := true }

/-- A connection-loss notification (`socket_listener` seeing an empty
read or an error run, or a failed send): status goes to `lost`, then
`_start_reconnect_thread` is invoked unless a loop is already running. -/
def connection_lost (s : ProtoState) : ProtoState :=
  let s1 := { s with rocrail_status := .lost }
  if s1.reconnect_running then s1 else start_reconnect_thread s1

/-- `RocrailProtocol.stop_connection`: cancel reconnection and tear down
(`reconnect_enabled` is *not* reset). -/
def stop_connection (s : ProtoState) : ProtoState :=
  { s with reconnect_running := false, rocrail_status := .disconnected }

/-- `_reconnect_loop` terminating after a successful attempt: counter
reset, status `connected`, the running flag dropped as the loop exits. -/
def reconnect_loop_success (s : ProtoState) : ProtoState :=
  { s with
    rocrail_status := .connected
    reconnect_attempts := 0
    reconnect_running := false }

/-- The session-lifecycle events. -/
inductive PEvent
  | connectFail
  | connectOk
  | rosterCommit
  | connLost
  | stopConn
  | reconnectSuccess
  deriving DecidableEq, Repr

/-- One event step. -/
def stepP (s : ProtoState) : PEvent → ProtoState
  | .connectFail => (start_connection_fail s).1
  | .connectOk => (start_connection_ok s).1
  | .rosterCommit => handle_data_roster s
  | .connLost => connection_lost s
  | .stopConn => stop_connection s
  | .reconnectSuccess => reconnect_loop_success s

/-- A session trace from `__init__`. -/
def runP (s : ProtoState) : List PEvent → ProtoState
  | [] => s
  | e :: es => runP (stepP s e) es

/-! ### Reconnect-gate lemmas -/

theorem start_reconnect_thread_enabled (s : ProtoState) :
    (start_reconnect_thread s).reconnect_enabled = s.reconnect_enabled := by
  unfold start_reconnect_thread
  repeat' split
  all_goals rfl

theorem start_reconnect_thread_loaded (s : ProtoState) :
    (start_reconnect_thread s).locomotives_loaded = s.locomotives_loaded := by
  unfold start_reconnect_thread
  repeat' split
  all_goals rfl

theorem connection_lost_enabled (s : ProtoState) :
    (connection_lost s).reconnect_enabled = s.reconnect_enabled := by
  simp only [connection_lost]
  split
  · rfl
  · rw [start_reconnect_thread_enabled]

theorem connection_lost_loaded (s : ProtoState) :
    (connection_lost s).locomotives_loaded = s.locomotives_loaded := by
  simp only [connection_lost]
  split
  · rfl
  · rw [start_reconnect_thread_loaded]

/-- The coupling `handle_data` maintains: `locomotives_loaded` is only
ever set together with `reconnect_enabled`. -/
def LoadedImpliesEnabled (s : ProtoState) : Prop :=
  s.locomotives_loaded = true → s.reconnect_enabled = true

theorem stepP_loaded_enabled {s : ProtoState} (h : LoadedImpliesEnabled s) (e : PEvent) :
    LoadedImpliesEnabled (stepP s e) := by
  cases e with
  | connectFail => exact h
  | connectOk => exact h
  | rosterCommit =>
    intro _
    simp only [stepP, handle_data_roster]
    split
    · next hl => exact h hl
    · rfl
  | connLost =>
    intro hl
    rw [stepP, connection_lost_loaded] at hl
    rw [stepP, connection_lost_enabled]
    exact h hl
  | stopConn => exact h
  | reconnectSuccess => exact h

theorem stepP_enabled_iff {s : ProtoState} (h : LoadedImpliesEnabled s) (e : PEvent) :
    ((stepP s e).reconnect_enabled = true ↔
      s.reconnect_enabled = true ∨ e = PEvent.rosterCommit) := by
  cases e with
  | connectFail => simp [stepP, start_connection_fail]
  | connectOk => simp [stepP, start_connection_ok]
  | rosterCommit =>
    simp only [stepP, handle_data_roster]
    split
    · next hl => simp [h hl]
    · simp
  | connLost =>
    rw [stepP, connection_lost_enabled]
    simp
  | stopConn => simp [stepP, stop_connection]
  | reconnectSuccess => simp [stepP, reconnect_loop_success]

theorem runP_enabled_iff :
    ∀ (evs : List PEvent) (s : ProtoState), LoadedImpliesEnabled s →
      ((runP s evs).reconnect_enabled = true ↔
        s.reconnect_enabled = true ∨ PEvent.rosterCommit ∈ evs) := by
  intro evs
  induction evs with
  | nil => intro s _; simp [runP]
  | cons e es ih =>
    intro s h
    have hstep := stepP_enabled_iff h e
    have hrec := ih (stepP s e) (stepP_loaded_enabled h e)
    simp only [runP]
    rw [hrec, hstep, List.mem_cons]
    constructor
    · rintro ((hs | he) | hm)
      · exact Or.inl hs
      · exact Or.inr (Or.inl he.symm)
      · exact Or.inr (Or.inr hm)
    · rintro (hs | (he | hm))
      · exact Or.inl (Or.inl hs)
      · exact Or.inl (Or.inr he.symm)
      · exact Or.inr hm

theorem stepP_enabled_mono {s : ProtoState} (h : s.reconnect_enabled = true) (e : PEvent) :
    (stepP s e).reconnect_enabled = true := by
  cases e with
  | connectFail => exact h
  | connectOk => exact h
  | rosterCommit =>
    simp only [stepP, handle_data_roster]
    split
    · exact h
    · rfl
  | connLost => rw [stepP, connection_lost_enabled]; exact h
  | stopConn => exact h
  | reconnectSuccess => exact h

/-- C7: the reconnection engine never runs before the stability flag.
(i) the very first `start_connection` failure returns `False` with no
loop started; (ii) `_start_reconnect_thread` is the identity while
`reconnect_enabled` is false; (iii) along every session trace from
`__init__`, `reconnect_enabled` is set iff a roster commit occurred, and
(iv) once set no event clears it; (v) with the flag set, a host
configured and no loop already running, a connection-loss notification
does start the reconnection loop. -/
theorem reconnect_stability_gate :
    ((start_connection_fail initProto).2 = false ∧
      (start_connection_fail initProto).1.reconnect_running = false ∧
      (start_connection_fail initProto).1.loops_started = 0) ∧
    (∀ s, s.reconnect_enabled = false → start_reconnect_thread s = s) ∧
    (∀ evs, ((runP initProto evs).reconnect_enabled = true ↔
      PEvent.rosterCommit ∈ evs)) ∧
    (∀ s e, s.reconnect_enabled = true → (stepP s e).reconnect_enabled = true) ∧
    (∀ s : ProtoState, s.reconnect_enabled = true → s.host_set = true →
      s.reconnect_running = false →
      (connection_lost s).reconnect_running = true) := by
  refine ⟨⟨rfl, rfl, rfl⟩, ?_, ?_, ?_, ?_⟩
  · intro s hs
    unfold start_reconnect_thread
    rw [if_pos]
    simp [hs]
  · intro evs
    have := runP_enabled_iff evs initProto (by intro h; cases h)
    simpa [initProto] using this
  · intro s e hs
    exact stepP_enabled_mono hs e
  · intro s hen hhost hrun
    unfold connection_lost start_reconnect_thread
    simp [hen, hhost, hrun]

/-- C7 witness: the gate evaluated at concrete states — the disabled
no-op at `__init__`, the enabling trace `connect; roster commit`, and a
loss in a stable connected state starting the loop. -/
theorem reconnect_stability_gate_witness :
    ((initProto.reconnect_enabled = false) ∧ start_reconnect_thread initProto = initProto) ∧
    ((runP initProto [PEvent.connectOk, PEvent.rosterCommit]).reconnect_enabled = true ↔
      PEvent.rosterCommit ∈ [PEvent.connectOk, PEvent.rosterCommit]) ∧
    (connection_lost
      ⟨RStatus.connected, true, false, 0, true, true, 1⟩).reconnect_running = true :=
  ⟨⟨rfl, reconnect_stability_gate.2.1 initProto rfl⟩,
    reconnect_stability_gate.2.2.1 [PEvent.connectOk, PEvent.rosterCommit],
    reconnect_stability_gate.2.2.2.2 ⟨RStatus.connected, true, false, 0, true, true, 1⟩
      rfl rfl rfl⟩

/-! ### Single-flight reconnection: the guard under preemptive threads

`_start_reconnect_thread`'s guard is plain unlocked statements
(`if self.reconnect_running: return` … `self.reconnect_running = True` …
`_thread.start_new_thread(self._reconnect_loop, ())`), and the loss
notifications that call it run on preemptive `_thread` threads (the
reader thread and a failed send on the main thread).  MicroPython's GIL
serialises single byte-codes only, so the statements of two notifications
can interleave.  Each thread of the loss-notification path is modelled as
the list of its remaining atomic statements, and a scheduler string picks
which thread executes its next statement. -/

/-- One atomic statement of the connection-loss notification path:
`self.rocrail_status = "lost"`, the caller's
`if not self.reconnect_running` pre-check, then inside
`_start_reconnect_thread` the `reconnect_enabled` / `reconnect_running` /
host checks, the `self.reconnect_running = True` assignment (with the
attempt-counter reset), and the `_thread.start_new_thread` call. -/
inductive GStep
  | setLost
  | callerCheck
  | checkEnabled
  | checkRunning
  | checkHost
  | setRunning
  | startThread
  deriving DecidableEq, Repr

/-- Execute one statement against the shared object; the boolean is
whether this notification continues (a failed check returns). -/
def execStep (s : ProtoState) : GStep → ProtoState × Bool
  | .setLost => ({ s with rocrail_status := .lost }, true)
  | .callerCheck => (s, !s.reconnect_running)
  | .checkEnabled => (s, s.reconnect_enabled)
  | .checkRunning => (s, !s.reconnect_running)
  | .checkHost => (s, s.host_set)
  | .setRunning => ({ s with reconnect_running := true, reconnect_attempts := 0 }, true)
  | .startThread => ({ s with loops_started := s.loops_started + 1 }, true)

/-- The statement sequence of one loss notification
(`socket_listener` loss handling followed by `_start_reconnect_thread`). -/
def notifyProgram : List GStep :=
  [.setLost, .callerCheck, .checkEnabled, .checkRunning, .checkHost,
    .setRunning, .startThread]

/-- The shared object plus the remaining statements of two concurrent
loss notifications. -/
structure RaceState where
  proto : ProtoState
  t1 : List GStep
  t2 : List GStep
  deriving DecidableEq, Repr

/-- Run a schedule: `false` executes the next statement of notification 1,
`true` of notification 2; a failed check empties that notification's
remaining statements (early `return`). -/
def runSched : RaceState → List Bool → RaceState
  | rs, [] => rs
  | rs, false :: sched =>
    match rs.t1 with
    | [] => runSched rs sched
    | g :: rest =>
      let p := execStep rs.proto g
      runSched { rs with proto := p.1, t1 := if p.2 then rest else [] } sched
  | rs, true :: sched =>
    match rs.t2 with
    | [] => runSched rs sched
    | g :: rest =>
      let p := execStep rs.proto g
      runSched { rs with proto := p.1, t2 := if p.2 then rest else [] } sched

/-- A stable connected session: roster loaded, reconnect enabled, host
configured, no loop running, no loop ever started. -/
def stableProto : ProtoState :=
  { rocrail_status := .connected
    reconnect_enabled := true
    reconnect_running := false
    reconnect_attempts := 0
    locomotives_loaded := true
    host_set := true
    loops_started := 0 }

/-- The racy schedule: notification 1 runs through its `checkHost` (five
statements), then notification 2 runs the same five — both pass the
`reconnect_running` check before either sets it — then each sets the flag
and starts a loop. -/
def raceSchedule : List Bool :=
  [false, false, false, false, false,
    true, true, true, true, true,
    false, false,
    true, true]

/-- The serialised schedule: notification 1 runs to completion, then
notification 2. -/
def serialSchedule : List Bool :=
  [false, false, false, false, false, false, false,
    true, true, true, true, true, true, true]

/-- C9: the claim is right about the intent (the guard's own comment says
"Prevent multiple reconnect threads") but the code does not enforce it:
the unlocked check-then-set guard lets two concurrent loss notifications
both pass `if self.reconnect_running: return` before either assigns the
flag, and both launch `_reconnect_loop` — two active loops, where the
claim (and the spec's single-flight guarantee) demand exactly one.  Under
the serialised schedule, where each notification completes before the
next begins, exactly one loop starts. -/
theorem single_flight_race :
    (runSched ⟨stableProto, notifyProgram, notifyProgram⟩ raceSchedule).proto.loops_started
        = 2 ∧
    (runSched ⟨stableProto, notifyProgram, notifyProgram⟩ serialSchedule).proto.loops_started
        = 1 := by
  decide

/-! ### Reconnection backoff (`_reconnect_loop` with `config.py` defaults) -/

/-- `config.RECONNECT_DELAY_FAST` (ms). -/
def RECONNECT_DELAY_FAST : Nat := 3000

/-- `config.RECONNECT_DELAY_SLOW` (ms). -/
def RECONNECT_DELAY_SLOW : Nat := 8000

/-- `config.RECONNECT_FAST_ATTEMPTS`. -/
def RECONNECT_FAST_ATTEMPTS : Nat := 3

/-- The delay `_reconnect_loop` computes from the current attempt
counter. -/
def reconnect_delay (attempts : Nat) : Nat :=
  if attempts < RECONNECT_FAST_ATTEMPTS then RECONNECT_DELAY_FAST else RECONNECT_DELAY_SLOW

/-- `_reconnect_loop` (with `RECONNECT_UNLIMITED = True`) driven by the
outcomes of successive `_attempt_connection` calls: per iteration it
sleeps the computed delay, increments the counter, and on failure applies
the `> 30` safety reset to `5`; on success it zeroes the counter and
exits.  Returns (delays slept, final counter, success).  The extra 5 s /
30 s recovery pauses change no delay computation and are not recorded. -/
def reconnect_loop : List Bool → Nat → List Nat × Nat × Bool
  | [], attempts => ([], attempts, false)
  | true :: _, attempts => ([reconnect_delay attempts], 0, true)
  | false :: rest, attempts =>
    let attempts1 := attempts + 1
    let attempts2 := if attempts1 > 30 then 5 else attempts1
    let r := reconnect_loop rest attempts2
    (reconnect_delay attempts :: r.1, r.2.1, r.2.2)

theorem reconnect_delay_of_ge {att : Nat} (h : 3 ≤ att) :
    reconnect_delay att = RECONNECT_DELAY_SLOW := by
  simp only [reconnect_delay, RECONNECT_FAST_ATTEMPTS]
  rw [if_neg (by omega)]

theorem reconnect_delay_of_lt {att : Nat} (h : att < 3) :
    reconnect_delay att = RECONNECT_DELAY_FAST := by
  simp only [reconnect_delay, RECONNECT_FAST_ATTEMPTS]
  rw [if_pos (by omega)]

theorem reconnect_loop_slow (outs : List Bool) :
    ∀ att, 3 ≤ att → ∀ d ∈ (reconnect_loop outs att).1, d = RECONNECT_DELAY_SLOW := by
  induction outs with
  | nil => intro att _ d hd; simp [reconnect_loop] at hd
  | cons o rest ih =>
    intro att hatt d hd
    cases o with
    | true =>
      simp only [reconnect_loop, List.mem_singleton] at hd
      subst hd
      exact reconnect_delay_of_ge hatt
    | false =>
      simp only [reconnect_loop, List.mem_cons] at hd
      rcases hd with rfl | hd
      · exact reconnect_delay_of_ge hatt
      · refine ih _ ?_ d hd
        split <;> omega

theorem reconnect_loop_delays_aux (outs : List Bool) :
    ∀ att, att < 3 → ∀ i, i < (reconnect_loop outs att).1.length →
      (reconnect_loop outs att).1.getD i 0 =
        if i < 3 - att then RECONNECT_DELAY_FAST else RECONNECT_DELAY_SLOW := by
  induction outs with
  | nil => intro att _ i h; simp [reconnect_loop] at h
  | cons o rest ih =>
    intro att hatt i h
    cases o with
    | true =>
      simp only [reconnect_loop, List.length_singleton] at h
      have hi : i = 0 := by omega
      subst hi
      simp only [reconnect_loop, List.getD_cons_zero]
      rw [if_pos (by omega)]
      exact reconnect_delay_of_lt hatt
    | false =>
      have hreset : (if att + 1 > 30 then 5 else att + 1) = att + 1 :=
        if_neg (by omega)
      cases i with
      | zero =>
        simp only [reconnect_loop, List.getD_cons_zero]
        rw [if_pos (by omega)]
        exact reconnect_delay_of_lt hatt
      | succ j =>
        simp only [reconnect_loop, List.length_cons, hreset] at h ⊢
        rw [List.getD_cons_succ]
        have hj : j < (reconnect_loop rest (att + 1)).1.length := by omega
        rcases Nat.lt_or_ge (att + 1) 3 with h3 | h3
        · rw [ih (att + 1) h3 j hj]
          by_cases hjc : j < 3 - (att + 1)
          · rw [if_pos hjc, if_pos (by omega)]
          · rw [if_neg hjc, if_neg (by omega)]
        · have hall := reconnect_loop_slow rest (att + 1) h3
          rw [List.getD_eq_getElem _ _ hj]
          rw [hall _ (List.getElem_mem hj), if_neg (by omega)]

theorem reconnect_loop_success_reset (outs : List Bool) :
    ∀ att, (reconnect_loop outs att).2.2 = true → (reconnect_loop outs att).2.1 = 0 := by
  induction outs with
  | nil => intro att h; simp [reconnect_loop] at h
  | cons o rest ih =>
    intro att h
    cases o with
    | true => rfl
    | false =>
      simp only [reconnect_loop] at h ⊢
      exact ih _ h

theorem reconnect_loop_first_success (outs : List Bool) :
    ∀ att, true ∈ outs →
      (reconnect_loop outs att).2.2 = true ∧
        (reconnect_loop outs att).1.length =
          (outs.takeWhile (fun b => !b)).length + 1 := by
  induction outs with
  | nil => intro att h; simp at h
  | cons o rest ih =>
    intro att h
    cases o with
    | true =>
      refine ⟨rfl, ?_⟩
      simp [reconnect_loop]
    | false =>
      have hmem : true ∈ rest := by simpa using h
      refine ⟨(ih _ hmem).1, ?_⟩
      simp only [reconnect_loop, List.length_cons, List.takeWhile_cons]
      simp [(ih _ hmem).2]

/-- C8: in the reconnection loop with the `config.py` defaults, the delay
slept before the i-th attempt is `RECONNECT_DELAY_FAST` (3000 ms) for the
first `RECONNECT_FAST_ATTEMPTS = 3` attempts and `RECONNECT_DELAY_SLOW`
(8000 ms) for every later attempt (also past the `> 30` counter reset to
5); on a successful attempt the counter is reset to 0 and the loop exits
immediately — it runs exactly (number of leading failures + 1)
iterations. -/
theorem reconnect_backoff_schedule :
    (∀ (outs : List Bool) (i : Nat), i < (reconnect_loop outs 0).1.length →
      (reconnect_loop outs 0).1.getD i 0 =
        if i < RECONNECT_FAST_ATTEMPTS then RECONNECT_DELAY_FAST else RECONNECT_DELAY_SLOW) ∧
    (∀ (outs : List Bool) (att : Nat),
      (reconnect_loop outs att).2.2 = true → (reconnect_loop outs att).2.1 = 0) ∧
    (∀ outs : List Bool, true ∈ outs →
      (reconnect_loop outs 0).2.2 = true ∧
        (reconnect_loop outs 0).1.length = (outs.takeWhile (fun b => !b)).length + 1) := by
  refine ⟨?_, reconnect_loop_success_reset,
    fun outs h => reconnect_loop_first_success outs 0 h⟩
  intro outs i h
  have := reconnect_loop_delays_aux outs 0 (by omega) i h
  simpa [RECONNECT_FAST_ATTEMPTS] using this

/-- C8 witness: three failures then a success — delays 3000, 3000, 3000,
8000, counter reset, loop length 4. -/
theorem reconnect_backoff_schedule_witness :
    ((reconnect_loop [false, false, false, true] 0).1.getD 3 0 =
      if 3 < RECONNECT_FAST_ATTEMPTS then RECONNECT_DELAY_FAST else RECONNECT_DELAY_SLOW) ∧
    ((reconnect_loop [false, false, false, true] 0).2.1 = 0) ∧
    ((reconnect_loop [false, false, false, true] 0).2.2 = true ∧
      (reconnect_loop [false, false, false, true] 0).1.length =
        (([false, false, false, true] : List Bool).takeWhile (fun b => !b)).length + 1) :=
  ⟨reconnect_backoff_schedule.1 [false, false, false, true] 3 (by decide),
    reconnect_backoff_schedule.2.1 [false, false, false, true] 0 (by decide),
    reconnect_backoff_schedule.2.2 [false, false, false, true] (by decide)⟩
